import Mathlib

/-!
Verification of the starfield-data transform pipeline.

This file gives a shallow embedding of the two core scripts of the
repository:

* `data_correction_tools/restructure.py` — normalization of raw, loosely
  typed per-body records into the canonical `Body` schema (defensive
  numeric parsing, unit stripping, biome/organic parsing, deterministic
  sorting), and
* `data_correction_tools/create_db.py` — relational loading of the
  canonical records into the store (resource short-name/full-name
  resolution, per-body transactions, duplicate-body handling).

Python strings are modelled as Lean `String`/`List Char`; Python `int()`
and `float()` string parsing are modelled by executable parsers below
(ASCII scope).  Python `float` values are modelled by `PyFloat`: finite
values carry an exact normalized fraction (`Frac`), and the non-finite
spellings accepted by `float()` are carried symbolically (no claim
inspects a non-finite value; only parse success/failure matters for
them).  Fallible code returns `Option`.
-/

namespace Starfield

/-! ### Exact fractions

`Rat` from the library does not reduce inside kernel-checked
evaluation, so we use our own normalized fraction representation with a
fuel-driven gcd.  `mkFrac` always produces the reduced form, hence
structural equality of constructed values coincides with equality of
the rationals they denote. -/

/-- Fuel-driven Euclidean gcd; fuel `m + 1` always suffices for
arguments `m`, `n`. -/
def gcdF : Nat → Nat → Nat → Nat
  | 0, _, n => n
  | Nat.succ f, m, n => if m = 0 then n else gcdF f (n % m) m

/-- Greatest common divisor via `gcdF`. -/
def natGcd (m n : Nat) : Nat := gcdF (m + 1) m n

/-- An exact fraction `num / den`.  Values built by `mkFrac` are in
lowest terms with a positive denominator. -/
structure Frac where
  num : Int
  den : Nat
deriving DecidableEq, Repr

/-- Build the reduced fraction `n / d` (with `d = 0` mapped to `0`,
which never arises from the parsers below). -/
def mkFrac (n : Int) (d : Nat) : Frac :=
  if d = 0 then ⟨0, 1⟩
  else
    let g := natGcd n.natAbs d
    ⟨n / (g : Int), d / g⟩

/-- The integer fraction `n / 1`. -/
def Frac.ofInt (n : Int) : Frac := ⟨n, 1⟩

/-- Negation of a fraction. -/
def Frac.neg (a : Frac) : Frac := ⟨-a.num, a.den⟩

/-- Apply a sign (`1` or `-1`) to a fraction. -/
def Frac.applySign (sgn : Int) (a : Frac) : Frac :=
  if sgn = 1 then a else a.neg

/-- Divide a fraction by a positive natural number. -/
def Frac.divNat (a : Frac) (k : Nat) : Frac := mkFrac a.num (a.den * k)

/-! ### Python string primitives -/

/-- Strip leading and trailing whitespace, as Python `str.strip()` does
for the ASCII whitespace characters. -/
def trimChars (cs : List Char) : List Char :=
  ((cs.dropWhile Char.isWhitespace).reverse.dropWhile Char.isWhitespace).reverse

/-- Attach a character to the first piece of a piece list. -/
def consHead (c : Char) : List (List Char) → List (List Char)
  | [] => [[c]]
  | h :: t => (c :: h) :: t

/-- Split a character list at every character satisfying `p`, keeping
empty pieces, exactly as Python `str.split(sep)` does for a one-character
separator (so `"a  b".split(" ")` gives `["a", "", "b"]`). -/
def splitWhen (p : Char → Bool) : List Char → List (List Char)
  | [] => [[]]
  | c :: rest =>
    if p c then [] :: splitWhen p rest else consHead c (splitWhen p rest)

/-- Python `s.split(sep)` for a single-character separator. -/
def splitChar (sep : Char) (cs : List Char) : List (List Char) :=
  splitWhen (fun c => decide (c = sep)) cs

/-- Python `sep.join(pieces)` for a single-character separator. -/
def intercalateChar (sep : Char) : List (List Char) → List Char
  | [] => []
  | [x] => x
  | x :: xs => x ++ sep :: intercalateChar sep xs

/-- Python `str.lower()` on one character (ASCII scope). -/
def lowerChar (c : Char) : Char :=
  if 'A' ≤ c ∧ c ≤ 'Z' then Char.ofNat (c.toNat + 32) else c

/-- Python `s.lower()` (ASCII scope). -/
def lowerStr (s : String) : String := ⟨s.data.map lowerChar⟩

/-! ### Python numeric parsing -/

/-- Numeric value of a list of decimal digits. -/
def digitsVal (ds : List Char) : Nat :=
  ds.foldl (fun a c => 10 * a + (c.toNat - 48)) 0

/-- Fuel-driven worker for `takeDigits`; the fuel only bounds recursion
depth and is at least the list length at every call site. -/
def takeDigitsF : Nat → List Char → List Char × List Char
  | 0, cs => ([], cs)
  | Nat.succ f, cs =>
    match cs with
    | [] => ([], [])
    | c :: rest =>
      if c.isDigit then
        match rest with
        | '_' :: rest2 =>
          match takeDigitsF f rest2 with
          | (d :: ds, rem) => (c :: d :: ds, rem)
          | ([], _) => ([c], '_' :: rest2)
        | _ =>
          let p := takeDigitsF f rest
          (c :: p.1, p.2)
      else ([], c :: rest)

/-- Consume the longest leading run of decimal digits in which single
underscores may appear between digits (Python numeric literal grammar);
returns the digits (underscores removed) and the unconsumed remainder. -/
def takeDigits (cs : List Char) : List Char × List Char :=
  takeDigitsF cs.length cs

/-- Strip one optional leading sign, returning the sign as `1` or `-1`. -/
def stripSign : List Char → Int × List Char
  | '+' :: r => (1, r)
  | '-' :: r => (-1, r)
  | r => (1, r)

/-- Python `int(s)` on a string: optional surrounding whitespace, one
optional sign, then decimal digits with optional single interior
underscores, and nothing else. -/
def pyIntChars (cs0 : List Char) : Option Int :=
  let sr := stripSign (trimChars cs0)
  match takeDigits sr.2 with
  | ([], _) => none
  | (ds, rem) => if rem = [] then some (sr.1 * (digitsVal ds : Int)) else none

/-- Python `int(s)` on a `String`. -/
def pyInt (s : String) : Option Int :=
  pyIntChars s.data

/-- Model of a Python `float` value: finite values exactly as reduced
fractions, non-finite values symbolically. -/
inductive PyFloat where
  | finite (q : Frac)
  | inf
  | neginf
  | nan
deriving DecidableEq, Repr

/-- Divide a (possibly non-finite) float by `100.0`, as in the biome
coverage computation. -/
def PyFloat.div100 : PyFloat → PyFloat
  | .finite q => .finite (q.divNat 100)
  | .inf => .inf
  | .neginf => .neginf
  | .nan => .nan

/-- Parse the mantissa of a Python float literal: `digits`, `digits.`,
`digits.digits` or `.digits`.  Returns its value and the remainder. -/
def parseMantissa (cs : List Char) : Option (Frac × List Char) :=
  match takeDigits cs with
  | ([], rest) =>
    match rest with
    | '.' :: r2 =>
      match takeDigits r2 with
      | ([], _) => none
      | (fs, r3) => some (mkFrac (digitsVal fs : Int) (10 ^ fs.length), r3)
    | _ => none
  | (ds, rest) =>
    match rest with
    | '.' :: r2 =>
      let p := takeDigits r2
      some (mkFrac ((digitsVal ds : Int) * (10 ^ p.1.length : Nat) +
        (digitsVal p.1 : Int)) (10 ^ p.1.length), p.2)
    | _ => some (Frac.ofInt (digitsVal ds : Int), rest)

/-- Apply a decimal exponent of sign `sgn` and magnitude `e` to `m`. -/
def applyExp (m : Frac) (sgn : Int) (e : Nat) : Frac :=
  if sgn = 1 then mkFrac (m.num * ((10 : Nat) ^ e : Nat)) m.den
  else mkFrac m.num (m.den * 10 ^ e)

/-- Parse the optional exponent part of a Python float literal and apply
it to the mantissa `m`; the remainder must be empty. -/
def parseExpPart (m : Frac) : List Char → Option Frac
  | [] => some m
  | e :: r =>
    if e = 'e' ∨ e = 'E' then
      let sr := stripSign r
      match takeDigits sr.2 with
      | ([], _) => none
      | (ds, rem) =>
        if rem = [] then some (applyExp m sr.1 (digitsVal ds)) else none
    else none

/-- The infinity spellings accepted by Python `float()`. -/
def isInfStr (cs : List Char) : Bool :=
  cs.map Char.toLower == ['i', 'n', 'f'] ||
    cs.map Char.toLower == ['i', 'n', 'f', 'i', 'n', 'i', 't', 'y']

/-- The NaN spelling accepted by Python `float()`. -/
def isNanStr (cs : List Char) : Bool :=
  cs.map Char.toLower == ['n', 'a', 'n']

/-- Python `float(s)` on a character list: optional surrounding
whitespace, one optional sign, then either a non-finite spelling or a
decimal mantissa with optional exponent. -/
def pyFloatChars (cs0 : List Char) : Option PyFloat :=
  let sr := stripSign (trimChars cs0)
  if isInfStr sr.2 then
    some (if sr.1 = 1 then PyFloat.inf else PyFloat.neginf)
  else if isNanStr sr.2 then some PyFloat.nan
  else
    match parseMantissa sr.2 with
    | none => none
    | some (m, rest) =>
      match parseExpPart m rest with
      | none => none
      | some v => some (PyFloat.finite (v.applySign sr.1))

/-- Python `float(s)` on a `String`. -/
def pyFloat (s : String) : Option PyFloat :=
  pyFloatChars s.data

/-! ### Canonical data model (`restructure.py` dataclasses) -/

/-- A biome with its coverage, as produced by the normalizer. -/
structure Biome where
  name : String
  coverage : PyFloat
deriving DecidableEq, Repr

/-- An organic resource entry (domesticable or gatherable organism). -/
structure OrganicResource where
  name : String
  resource : String
deriving DecidableEq, Repr

/-- The canonical celestial-body record. -/
structure Body where
  system : String
  name : String
  atmosphere : String
  fauna : Int
  flora : Int
  gravity : PyFloat
  hab_rank : Int
  magnetosphere : String
  planet_length : Int
  temperature : String
  type : String
  water : String
  biomes : List Biome
  traits : List String
  resources : List String
  domesticable : List OrganicResource
  gatherable : List OrganicResource
deriving DecidableEq, Repr

/-- A raw scalar that may arrive from the JSON as either a string or a
number; `planet_length` is the one field the source guards against a
non-string value (its `AttributeError` handler). -/
inductive StrOrInt where
  | str (s : String)
  | int (n : Int)
deriving DecidableEq, Repr

/-- One raw body record as consumed by `restructure.py` (the fields the
script reads from each JSON object; string-typed fields are those the
script calls string methods on without a guard). -/
structure RawBody where
  atmosphere : String
  fauna : String
  flora : String
  gravity : String
  hab_rank : String
  magnetosphere : String
  planet_length : StrOrInt
  temperature : String
  type : String
  water : String
  biomes : List String
  traits : List String
  resources : List String
  domesticable : List String
  gatherable : List String
deriving DecidableEq, Repr

/-- Diagnostics printed by the normalizer (one constructor per
`print` call, carrying the identifying data of the message). -/
inductive Diag where
  | invalidFauna (system body raw : String)
  | invalidFlora (system body raw : String)
  | invalidHabRank (system body raw : String)
  | invalidPlanetLength (system body : String) (raw : StrOrInt)
  | invalidBiome (system body raw : String)
deriving DecidableEq, Repr

/-! ### Normalization (`restructure.py` main loop)

Python compares strings by code points; we model that as the
lexicographic order on `String.data` (`List Char`), which is exactly
the library's linear order on `List Char`.  Python `list.sort` is a
stable sort; `List.insertionSort` is stable as well, so both produce
the identical output list for the same key order. -/

/-- Python string order, `a <= b` on code points. -/
def strLe (a b : String) : Prop := ¬ b.data < a.data

instance (a b : String) : Decidable (strLe a b) :=
  inferInstanceAs (Decidable (¬ _))

/-- `strLe` is the linear order `≤` on the underlying character
lists. -/
theorem strLe_iff (a b : String) : strLe a b ↔ a.data ≤ b.data := not_lt

instance : IsTotal String strLe :=
  ⟨fun a b => by
    rw [strLe_iff, strLe_iff]; exact le_total a.data b.data⟩

instance : IsTrans String strLe :=
  ⟨fun a b c h h2 => by
    rw [strLe_iff] at *; exact le_trans h h2⟩

/-- Strings are equal when their character lists are. -/
theorem string_eq_of_data (a b : String) (h : a.data = b.data) : a = b := by
  cases a; cases b; exact congrArg String.mk h

/-- Name order used by the Python `sort(key=attrgetter("name"))` call
on biomes. -/
def biomeNameLE (a b : Biome) : Prop := strLe a.name b.name

instance : DecidableRel biomeNameLE := fun a b =>
  inferInstanceAs (Decidable (strLe a.name b.name))

instance : IsTotal Biome biomeNameLE :=
  ⟨fun a b => @IsTotal.total String strLe _ a.name b.name⟩

instance : IsTrans Biome biomeNameLE :=
  ⟨fun _ _ _ h h2 => @IsTrans.trans String strLe _ _ _ _ h h2⟩

/-- Name order for organics. -/
def orgNameLE (a b : OrganicResource) : Prop := strLe a.name b.name

instance : DecidableRel orgNameLE := fun a b =>
  inferInstanceAs (Decidable (strLe a.name b.name))

instance : IsTotal OrganicResource orgNameLE :=
  ⟨fun a b => @IsTotal.total String strLe _ a.name b.name⟩

instance : IsTrans OrganicResource orgNameLE :=
  ⟨fun _ _ _ h h2 => @IsTrans.trans String strLe _ _ _ _ h h2⟩

/-- Normalize one raw biome entry (`restructure.py` lines 156-171): if
the string contains a percent sign, split on single spaces, join all
pieces but the last as the name, and parse the last piece (percent
signs removed) as a float divided by 100; a float parse failure drops
the entry.  Without a percent sign the whole string is the name and the
coverage is zero. -/
def parseBiome (s : String) : Option Biome :=
  if '%' ∈ s.data then
    let parts := splitChar ' ' s.data
    match pyFloatChars ((parts.getLastD []).filter (fun c => decide (c ≠ '%'))) with
    | none => none
    | some c => some ⟨⟨intercalateChar ' ' parts.dropLast⟩, c.div100⟩
  else some ⟨s, PyFloat.finite ⟨0, 1⟩⟩

/-- The normalized biome list of a body: parse each entry, drop the
failures, sort by name. -/
def normalizeBiomes (bs : List String) : List Biome :=
  (bs.filterMap parseBiome).insertionSort biomeNameLE

/-- Normalize one raw organic entry (`restructure.py` lines 180-196):
split on `(`; the name is the first piece trimmed; the resource is the
last piece with all `)` removed, trimmed. -/
def parseOrganic (s : String) : OrganicResource :=
  let parts := splitChar '(' s.data
  ⟨⟨trimChars (parts.headD [])⟩,
   ⟨trimChars ((parts.getLastD []).filter (fun c => decide (c ≠ ')')))⟩⟩

/-- The normalized organic list: parse each entry, sort by name. -/
def normalizeOrganics (l : List String) : List OrganicResource :=
  (l.map parseOrganic).insertionSort orgNameLE

/-- Gravity parsing (`restructure.py` line 131): remove every `g`,
strip whitespace, parse as float.  There is no exception handler. -/
def parseGravity (s : String) : Option PyFloat :=
  pyFloatChars (trimChars (s.data.filter (fun c => decide (c ≠ 'g'))))

/-- The `planet_length` parse attempt: on a string, split on spaces and
parse the first piece as an integer; a non-string raw value raises
`AttributeError` (modelled as a parse failure, which the source
catches). -/
def parsePlanetLength : StrOrInt → Option Int
  | .str s => pyIntChars ((splitChar ' ' s.data).headD [])
  | .int _ => none

/-- Normalize one raw body record (the per-body portion of
`restructure.py` `main`).  Numeric fields fall back to defaults with a
diagnostic; a gravity parse failure has no handler and aborts the whole
run (`none`). -/
def normalizeBody (systemName bodyName : String) (rb : RawBody) :
    Option (Body × List Diag) :=
  match parseGravity rb.gravity with
  | none => none
  | some grav =>
    let fauna := match pyInt rb.fauna with
      | some n => (n, ([] : List Diag))
      | none => (0, [Diag.invalidFauna systemName bodyName rb.fauna])
    let flora := match pyInt rb.flora with
      | some n => (n, ([] : List Diag))
      | none => (0, [Diag.invalidFlora systemName bodyName rb.flora])
    let hab := match pyInt rb.hab_rank with
      | some n => (n, ([] : List Diag))
      | none => (0, [Diag.invalidHabRank systemName bodyName rb.hab_rank])
    let plen := match parsePlanetLength rb.planet_length with
      | some n => (n, ([] : List Diag))
      | none =>
        (24, [Diag.invalidPlanetLength systemName bodyName rb.planet_length])
    let biomeDiags := rb.biomes.filterMap fun s =>
      if (parseBiome s).isNone then
        some (Diag.invalidBiome systemName bodyName s)
      else none
    some ({ system := systemName
            name := bodyName
            atmosphere := lowerStr rb.atmosphere
            fauna := fauna.1
            flora := flora.1
            gravity := grav
            hab_rank := hab.1
            magnetosphere := lowerStr rb.magnetosphere
            planet_length := plen.1
            temperature := lowerStr rb.temperature
            type := rb.type
            water := lowerStr rb.water
            biomes := normalizeBiomes rb.biomes
            traits := rb.traits.insertionSort strLe
            resources := rb.resources
            domesticable := normalizeOrganics rb.domesticable
            gatherable := normalizeOrganics rb.gatherable },
          fauna.2 ++ flora.2 ++ hab.2 ++ plen.2 ++ biomeDiags)

/-- The raw input: an ordered map of system name to an ordered map of
body name to raw record (JSON objects preserve insertion order). -/
abbrev RawGalaxy := List (String × List (String × RawBody))

/-- Normalize every body of one system, in order; a fatal per-body
error aborts the run. -/
def normalizeSystem (sys : String) :
    List (String × RawBody) → Option (List Body × List Diag)
  | [] => some ([], [])
  | (nm, rb) :: rest =>
    match normalizeBody sys nm rb with
    | none => none
    | some (b, ds) =>
      match normalizeSystem sys rest with
      | none => none
      | some (bs, ds2) => some (b :: bs, ds ++ ds2)

/-- Normalize every system of the raw input, in order. -/
def normalizeAll : RawGalaxy → Option (List Body × List Diag)
  | [] => some ([], [])
  | (sys, bodies) :: rest =>
    match normalizeSystem sys bodies with
    | none => none
    | some (bs, ds) =>
      match normalizeAll rest with
      | none => none
      | some (bs2, ds2) => some (bs ++ bs2, ds ++ ds2)

/-- The `galaxy.sort(key=attrgetter("system", "name"))` order:
lexicographic on the (system, name) pair, Python code-point string
comparison. -/
def bodyKeyLE (a b : Body) : Prop :=
  a.system.data < b.system.data ∨ (a.system = b.system ∧ strLe a.name b.name)

instance : DecidableRel bodyKeyLE := fun a b =>
  inferInstanceAs (Decidable (a.system.data < b.system.data ∨
    (a.system = b.system ∧ strLe a.name b.name)))

instance : IsTotal Body bodyKeyLE :=
  ⟨fun a b => by
    rcases lt_trichotomy a.system.data b.system.data with h | h | h
    · exact Or.inl (Or.inl h)
    · have hs : a.system = b.system := string_eq_of_data _ _ h
      rcases @IsTotal.total String strLe _ a.name b.name with hn | hn
      · exact Or.inl (Or.inr ⟨hs, hn⟩)
      · exact Or.inr (Or.inr ⟨hs.symm, hn⟩)
    · exact Or.inr (Or.inl h)⟩

instance : IsTrans Body bodyKeyLE :=
  ⟨fun a b c h h2 => by
    rcases h with h | ⟨he, hn⟩
    · rcases h2 with h2 | ⟨he2, _⟩
      · exact Or.inl (lt_trans h h2)
      · exact Or.inl (he2 ▸ h)
    · rcases h2 with h2 | ⟨he2, hn2⟩
      · exact Or.inl (he ▸ h2)
      · exact Or.inr ⟨he.trans he2, @IsTrans.trans String strLe _ _ _ _ hn hn2⟩⟩

/-- Sort the collected bodies by (system, name), as the final step of
`restructure.py` `main` does. -/
def sortGalaxy (g : List Body) : List Body := g.insertionSort bodyKeyLE

/-- The whole normalization stage: collect and normalize every body,
then sort; `none` models the run dying on an unhandled exception. -/
def restructureMain (raw : RawGalaxy) : Option (List Body × List Diag) :=
  match normalizeAll raw with
  | none => none
  | some (g, ds) => some (sortGalaxy g, ds)

/-! ### Relational loading (`create_db.py`) -/

/-- One record of `resources.json`, as read by `insert_resources`. -/
structure Resource where
  resource : String
  shortName : String
  rarity : String
  type : String
  mass : Frac
  value : Frac
  valueToMass : Frac
deriving DecidableEq, Repr

/-- The `shortname_map`: a Python dict from lowercased name to the
opposite-form name, in insertion order. -/
abbrev SMap := List (String × String)

/-- Python dict assignment `m[k] = v`: overwrite in place if the key is
present, else append. -/
def dictInsert : SMap → String → String → SMap
  | [], k, v => [(k, v)]
  | (k', v') :: rest, k, v =>
    if k' = k then (k, v) :: rest else (k', v') :: dictInsert rest k v

/-- Python dict lookup `m[k]` (`none` models the `KeyError`). -/
def dictGet (m : SMap) (k : String) : Option String :=
  match m with
  | [] => none
  | (k', v') :: rest => if k' = k then some v' else dictGet rest k

/-- The map built by `insert_resources` (lines 164-176): for each
resource, `lower(shortName) -> fullName` then
`lower(fullName) -> shortName`. -/
def buildShortnameMap (catalog : List Resource) : SMap :=
  catalog.foldl
    (fun m r =>
      dictInsert (dictInsert m (lowerStr r.shortName) r.resource)
        (lowerStr r.resource) r.shortName)
    []

/-- The loader's name resolution, `shortname_map[resource.lower()]`
(`create_db.py` line 255). -/
def resolveName (m : SMap) (r : String) : Option String :=
  dictGet m (lowerStr r)

/-- Resolve every resource reference of a body, in order; `none` models
the `KeyError` raised at the first unresolved reference. -/
def resolveAll (m : SMap) : List String → Option (List String)
  | [] => some []
  | r :: rs =>
    match resolveName m r, resolveAll m rs with
    | some f, some fs => some (f :: fs)
    | _, _ => none

/-- One row of the `bodies` table, in the column order of the insert at
`create_db.py` lines 222-241. -/
structure BodyRow where
  name : String
  system : String
  type : String
  gravity : PyFloat
  temperature : String
  atmosphere : String
  magnetosphere : String
  water : String
  fauna : Int
  flora : Int
  hab_rank : Int
  planet_length : Int
deriving DecidableEq, Repr

/-- The bodies-table row of a canonical body. -/
def bodyRowOf (b : Body) : BodyRow :=
  ⟨b.name, b.system, b.type, b.gravity, b.temperature, b.atmosphere,
   b.magnetosphere, b.water, b.fauna, b.flora, b.hab_rank, b.planet_length⟩

/-- The relational store: the committed rows of each table. -/
structure DB where
  resources : List Resource
  systems : List (String × Nat)
  bodies : List BodyRow
  traits : List (String × String × String)
  body_resources : List (String × String × String)
  body_organics : List (String × String × String × String × Bool)
  biomes : List (String × String × String × PyFloat)
deriving DecidableEq, Repr

/-- The empty store. -/
def emptyDB : DB := ⟨[], [], [], [], [], [], []⟩

/-- Diagnostics printed by the loader (the `Bad data in {row}` message
of the duplicate-body handler, identified by the offending row). -/
inductive LoadDiag where
  | badData (row : BodyRow)
deriving DecidableEq, Repr

/-- Modelled from the spec: the schema file `sf.sql` executed at
start-of-run is data outside the source tree; per the spec the `bodies`
table's composite key (system, name) must be unique, so inserting a row
whose key is already present raises `sqlite3.IntegrityError`.  This
predicate is that key-presence test. -/
def bodyKeyPresent (rows : List BodyRow) (b : Body) : Bool :=
  rows.any fun r => decide (r.name = b.name ∧ r.system = b.system)

/-- The store state committed by one body transaction: the body row
(unless its key is already present), then the trait, resolved-resource,
organic (domesticable `true` first, gatherable `false` second) and
biome child rows, in the insert order of the loop. -/
def txDB (db : DB) (b : Body) (fulls : List String) : DB :=
  { db with
    bodies :=
      if bodyKeyPresent db.bodies b then db.bodies
      else db.bodies ++ [bodyRowOf b]
    traits := db.traits ++ b.traits.map fun t => (b.system, b.name, t)
    body_resources :=
      db.body_resources ++ fulls.map fun f => (b.system, b.name, f)
    body_organics := db.body_organics ++
      (b.domesticable.map fun o =>
        (b.system, b.name, o.name, o.resource, true)) ++
      (b.gatherable.map fun o =>
        (b.system, b.name, o.name, o.resource, false))
    biomes :=
      db.biomes ++ b.biomes.map fun bm =>
        (b.system, b.name, bm.name, bm.coverage) }

/-- The diagnostic printed by one body transaction: the duplicate-key
message, when the body row was skipped. -/
def txDiag (db : DB) (b : Body) : List LoadDiag :=
  if bodyKeyPresent db.bodies b then [LoadDiag.badData (bodyRowOf b)]
  else []

/-- One iteration of the loader's per-body loop (`create_db.py` lines
222-275), as the transaction committed at its end: the body row (or a
duplicate diagnostic and no row), the trait rows, the resolved
body-resource rows, the organic rows (domesticable `true` first, then
gatherable `false`), and the biome rows.  An unresolved resource
reference raises `KeyError` before the commit, so nothing of the body
survives (`none`). -/
def insertBodyTx (m : SMap) (db : DB) (b : Body) :
    Option (DB × List LoadDiag) :=
  match resolveAll m b.resources with
  | none => none
  | some fulls => some (txDB db b fulls, txDiag db b)

/-- The loader's body loop: process bodies in galaxy order, committing
after each; an unresolved reference aborts the run (flag `true`), and
the store keeps only what was committed before the offending body. -/
def insertGalaxy (m : SMap) (db : DB) : List Body → DB × List LoadDiag × Bool
  | [] => (db, [], false)
  | b :: rest =>
    match insertBodyTx m db b with
    | none => (db, [], true)
    | some (db2, ds) =>
      let r := insertGalaxy m db2 rest
      (r.1, ds ++ r.2.1, r.2.2)

/-- Add one body to the per-system tally, as `collections.Counter`
does (first-occurrence key order). -/
def bumpSystem (acc : List (String × Nat)) (s : String) : List (String × Nat) :=
  if acc.any (fun p => decide (p.1 = s)) then
    acc.map fun p => if p.1 = s then (p.1, p.2 + 1) else p
  else acc ++ [(s, 1)]

/-- The per-system body counts inserted into `systems`
(`create_db.py` lines 216-220). -/
def systemCounts (g : List Body) : List (String × Nat) :=
  g.foldl (fun acc b => bumpSystem acc b.system) []

/-- `insert_resources`: append every catalog row to the `resources`
table and build the shortname map. -/
def insertResources (catalog : List Resource) (db : DB) : DB × SMap :=
  ({ db with resources := db.resources ++ catalog }, buildShortnameMap catalog)

/-- `insert_galaxy`: insert the system counts, then run the body
loop. -/
def loadGalaxy (m : SMap) (db : DB) (g : List Body) :
    DB × List LoadDiag × Bool :=
  insertGalaxy m { db with systems := db.systems ++ systemCounts g } g

/-- `connect_to_db`: if a store from a previous run exists it is
deleted, so the run always starts from the empty store. -/
def connectToDb (_prior : Option DB) : DB := emptyDB

/-- A whole `create_db.py` run over a catalog and a canonical galaxy,
starting from whatever store a previous run left behind. -/
def createDbRun (prior : Option DB) (catalog : List Resource)
    (g : List Body) : DB × List LoadDiag × Bool :=
  let p := insertResources catalog (connectToDb prior)
  loadGalaxy p.2 p.1 g

/-- The two-stage pipeline: normalize, then load the canonical galaxy
(the canonical file is written and re-read verbatim in between). -/
def pipelineRun (priorStore : Option DB) (catalog : List Resource)
    (raw : RawGalaxy) :
    Option ((List Body × List Diag) × (DB × List LoadDiag × Bool)) :=
  match restructureMain raw with
  | none => none
  | some (g, ds) => some ((g, ds), createDbRun priorStore catalog g)

/-- The Iron/Fe resource of the spec's example. -/
def ironRes : Resource :=
  ⟨"Iron", "Fe", "Common", "Metal", ⟨1, 1⟩, ⟨1, 1⟩, ⟨1, 1⟩⟩

/-- The Iron/Fe one-resource catalog of the spec's example. -/
def ironCatalog : List Resource := [ironRes]

/-! ### Claim-side descriptions

The following definitions are written from the claims' words (not from
the source); they exist to state claims that talk about the parsing
rules in a split-free way, and to falsify claims where the source
deviates from them. -/

/-- The suffix of `cs` after the last character satisfying `p` (the
whole list when none does). -/
def afterLastWhen (p : Char → Bool) : List Char → List Char
  | [] => []
  | c :: rest =>
    if rest.any p then afterLastWhen p rest
    else if p c then rest else c :: rest

/-- The strict prefix of `cs` before the last character satisfying `p`
(empty when none does). -/
def beforeLastWhen (p : Char → Bool) : List Char → List Char
  | [] => []
  | c :: rest => if rest.any p then c :: beforeLastWhen p rest else []

/-- Follows the claims' words: the whitespace-separated tokens of a
string (maximal non-empty runs of non-whitespace characters). -/
def wsTokens (s : String) : List String :=
  ((splitWhen Char.isWhitespace s.data).filter fun t => decide (t ≠ [])).map
    fun t => (⟨t⟩ : String)

/-- Follows the claims' words (C8): the text after the first `(`
(empty when there is none). -/
def afterFirstParen (s : String) : String :=
  ⟨(s.data.dropWhile fun c => decide (c ≠ '(')).drop 1⟩

/-- Follows the claims' words (C8): strip one trailing `)` if present,
then trim. -/
def stripTrailingParen (s : String) : String :=
  if s.data.getLastD ' ' = ')' then ⟨trimChars s.data.dropLast⟩
  else ⟨trimChars s.data⟩

/-- Amended biome rule (C3): for an entry containing `%`, the name is
the text before the last space character (splitting is on single space
characters, so runs of spaces survive into the name) and the coverage
is parsed from the text after the last space with percent signs
removed, divided by 100; a coverage parse failure drops the entry; an
entry without `%` is a name with coverage zero. -/
def biomeRule (s : String) : Option Biome :=
  if '%' ∈ s.data then
    match pyFloatChars ((afterLastWhen (fun c => decide (c = ' ')) s.data).filter
        fun c => decide (c ≠ '%')) with
    | none => none
    | some c =>
      some ⟨⟨beforeLastWhen (fun c => decide (c = ' ')) s.data⟩, c.div100⟩
  else some ⟨s, PyFloat.finite ⟨0, 1⟩⟩

/-- Amended organic rule (C8): the name is the text before the first
`(`, trimmed; the resource is the text after the last `(` with every
`)` removed, trimmed. -/
def organicRule (s : String) : OrganicResource :=
  ⟨⟨trimChars (s.data.takeWhile fun c => ! decide (c = '('))⟩,
   ⟨trimChars ((afterLastWhen (fun c => decide (c = '(')) s.data).filter
      fun c => decide (c ≠ ')'))⟩⟩

/-- A `Frac` percentage within `[0, 100]` (`den` of parsed fractions is
always positive). -/
def pctInRange (q : Frac) : Prop := 0 ≤ q.num ∧ q.num ≤ 100 * (q.den : Int)

instance (q : Frac) : Decidable (pctInRange q) :=
  inferInstanceAs (Decidable (_ ∧ _))

/-- The biome-coverage token parse of an entry (the last space-piece
with percent signs removed, as a float). -/
def pctParse (s : String) : Option PyFloat :=
  pyFloatChars (((splitChar ' ' s.data).getLastD []).filter
    fun c => decide (c ≠ '%'))

/-- A float value that is a fraction in the closed interval `[0, 1]`. -/
def coverInUnit : PyFloat → Prop
  | .finite q => 0 ≤ q.num ∧ q.num ≤ (q.den : Int)
  | _ => False

instance (p : PyFloat) : Decidable (coverInUnit p) := by
  cases p <;> simp [coverInUnit] <;> infer_instance

/-- The coverage token of a biome entry, when it parses, is a finite
percentage within `[0, 100]` (trivially true when it does not parse). -/
def pctOK (s : String) : Prop :=
  match pctParse s with
  | none => True
  | some (PyFloat.finite q) => pctInRange q
  | some _ => False

instance (s : String) : Decidable (pctOK s) := by
  unfold pctOK
  rcases pctParse s with _ | p
  · exact inferInstanceAs (Decidable True)
  · cases p
    · exact inferInstanceAs (Decidable (pctInRange _))
    · exact inferInstanceAs (Decidable False)
    · exact inferInstanceAs (Decidable False)
    · exact inferInstanceAs (Decidable False)

/-! ### Concrete fixtures used by witnesses and counterexamples -/

/-- A body referencing the resource `Iron` by its full name in upper
case. -/
def bodyIron : Body :=
  { system := "Sys", name := "B", atmosphere := "none", fauna := 0,
    flora := 0, gravity := PyFloat.finite ⟨1, 1⟩, hab_rank := 0,
    magnetosphere := "none", planet_length := 24, temperature := "cold",
    type := "Rock", water := "none", biomes := [], traits := [],
    resources := ["IRON"], domesticable := [], gatherable := [] }

/-- A body whose resource list resolves (short name, odd case). -/
def bodyOkay : Body :=
  { bodyIron with
    name := "A"
    resources := ["fe"]
    traits := ["Chiral"]
    biomes := [⟨"Desert", PyFloat.finite ⟨0, 1⟩⟩] }

/-- A duplicate of `bodyOkay`'s key with its own child rows. -/
def bodyDupe : Body :=
  { bodyIron with
    name := "A"
    resources := ["iron"]
    traits := ["Crystalline"]
    domesticable := [⟨"Void Sloth", "Argon"⟩] }

/-- A raw body whose numeric fields all fail to parse while gravity
parses. -/
def rawBodyBadNums : RawBody :=
  { atmosphere := "None", fauna := "abundant", flora := "n/a",
    gravity := "1.0g", hab_rank := "?", magnetosphere := "None",
    planet_length := .str "soon", temperature := "Cold", type := "Rock",
    water := "None", biomes := [], traits := [], resources := [],
    domesticable := [], gatherable := [] }

/-- A raw body whose `planet_length` begins with a space (the C4
counterexample input). -/
def rawBodyPL : RawBody :=
  { rawBodyBadNums with
    fauna := "0"
    flora := "0"
    hab_rank := "0"
    planet_length := .str " 5" }

/-- A raw body whose gravity does not parse. -/
def rawBodyBadGravity : RawBody :=
  { rawBodyPL with
    gravity := "heavy"
    planet_length := .str "24 hours" }

/-- A raw body with one well-formed biome and one biome whose coverage
token does not parse. -/
def rawBodyBiome : RawBody :=
  { rawBodyBadGravity with
    gravity := "1.0g"
    biomes := ["Bad 12x%", "Desert"] }

/-- The normalized body of `rawBodyBiome` (the malformed biome entry is
dropped). -/
def biomeNormBody : Body :=
  { system := "S", name := "P", atmosphere := "none", fauna := 0,
    flora := 0, gravity := PyFloat.finite ⟨1, 1⟩, hab_rank := 0,
    magnetosphere := "none", planet_length := 24, temperature := "cold",
    type := "Rock", water := "none",
    biomes := [⟨"Desert", PyFloat.finite ⟨0, 1⟩⟩], traits := [],
    resources := [], domesticable := [], gatherable := [] }

/-- The diagnostics of normalizing `rawBodyBiome`: one warning for the
dropped biome entry. -/
def biomeNormDiags : List Diag := [Diag.invalidBiome "S" "P" "Bad 12x%"]

/-- The lowercased short and full names of a catalog, interleaved (the
keys `insert_resources` writes into the shortname map). -/
def catalogKeys : List Resource → List String
  | [] => []
  | r :: rest => lowerStr r.shortName :: lowerStr r.resource :: catalogKeys rest

/-- Number of `bodies` rows with the given (system, name) key. -/
def countBodies (rows : List BodyRow) (s n : String) : Nat :=
  (rows.filter fun r => decide (r.system = s ∧ r.name = n)).length

/-- Number of duplicate-body diagnostics for the given key. -/
def countDupDiags (ds : List LoadDiag) (s n : String) : Nat :=
  (ds.filter fun d =>
    match d with
    | .badData row => decide (row.system = s ∧ row.name = n)).length

/-- Number of bodies in a galaxy with the given (system, name) key. -/
def occKey (g : List Body) (s n : String) : Nat :=
  (g.filter fun b => decide (b.system = s ∧ b.name = n)).length

/-! ### Structural lemmas about splitting -/

theorem splitWhen_ne_nil (p : Char → Bool) (cs : List Char) :
    splitWhen p cs ≠ [] := by
  induction cs with
  | nil => simp [splitWhen]
  | cons c rest ih =>
    simp only [splitWhen]
    by_cases h : p c
    · simp [h]
    · simp only [h, Bool.false_eq_true, if_neg, not_false_eq_true]
      cases hs : splitWhen p rest with
      | nil => exact absurd hs ih
      | cons a t => simp [consHead]

theorem splitWhen_length (p : Char → Bool) (cs : List Char) :
    (splitWhen p cs).length = cs.countP p + 1 := by
  induction cs with
  | nil => simp [splitWhen]
  | cons c rest ih =>
    simp only [splitWhen, List.countP_cons]
    by_cases h : p c
    · simp [h, ih]
    · simp only [h, Bool.false_eq_true, if_neg, not_false_eq_true]
      cases hs : splitWhen p rest with
      | nil => exact absurd hs (splitWhen_ne_nil p rest)
      | cons a t =>
        have := ih
        rw [hs] at this
        simp [consHead, h, ← this]

theorem splitWhen_of_any_false {p : Char → Bool} {cs : List Char}
    (h : cs.any p = false) : splitWhen p cs = [cs] := by
  induction cs with
  | nil => simp [splitWhen]
  | cons c rest ih =>
    simp only [List.any_cons, Bool.or_eq_false_iff] at h
    simp only [splitWhen, h.1, Bool.false_eq_true, if_neg, not_false_eq_true,
      ih h.2, consHead]

theorem any_true_of_splitWhen_cons_cons {p : Char → Bool} {cs : List Char}
    {a b : List Char} {t : List (List Char)}
    (h : splitWhen p cs = a :: b :: t) : cs.any p = true := by
  by_contra hfalse
  rw [Bool.not_eq_true] at hfalse
  rw [splitWhen_of_any_false hfalse] at h
  simp at h

theorem any_false_of_splitWhen_singleton {p : Char → Bool} {cs : List Char}
    {x : List Char} (h : splitWhen p cs = [x]) : cs.any p = false := by
  by_contra hcon
  rw [Bool.not_eq_false] at hcon
  rcases List.any_eq_true.mp hcon with ⟨a, ha2, hpa⟩
  have hl := splitWhen_length p cs
  rw [h] at hl
  simp only [List.length_cons, List.length_nil] at hl
  have hpos : 0 < cs.countP p := List.countP_pos_iff.mpr ⟨a, ha2, hpa⟩
  omega

theorem getLastD_splitWhen (p : Char → Bool) (cs : List Char) :
    (splitWhen p cs).getLastD [] = afterLastWhen p cs := by
  induction cs with
  | nil => simp [splitWhen, afterLastWhen]
  | cons c rest ih =>
    simp only [splitWhen, afterLastWhen]
    by_cases hc : p c
    · simp only [hc, if_pos, List.getLastD_cons]
      by_cases ha : rest.any p = true
      · rw [if_pos ha, ← ih]
      · rw [Bool.not_eq_true] at ha
        rw [ha]
        simp only [Bool.false_eq_true, if_neg, not_false_eq_true, hc, if_pos]
        rw [splitWhen_of_any_false ha]
        simp
    · simp only [hc, Bool.false_eq_true, if_neg, not_false_eq_true]
      cases hs : splitWhen p rest with
      | nil => exact absurd hs (splitWhen_ne_nil p rest)
      | cons x t =>
        cases t with
        | nil =>
          have ha : rest.any p = false := any_false_of_splitWhen_singleton hs
          have hx : rest = x := by
            have h2 := splitWhen_of_any_false ha
            rw [hs] at h2
            simpa using h2.symm
          subst hx
          simp [consHead, ha, hc]
        | cons y t2 =>
          have ha : rest.any p = true := any_true_of_splitWhen_cons_cons hs
          simp only [consHead, ha, if_pos]
          rw [← ih, hs]
          simp only [List.getLastD_cons]
    
theorem headD_splitWhen (p : Char → Bool) (cs : List Char) :
    (splitWhen p cs).headD [] = cs.takeWhile fun c => ! p c := by
  induction cs with
  | nil => simp [splitWhen]
  | cons c rest ih =>
    simp only [splitWhen, List.takeWhile_cons]
    by_cases hc : p c
    · simp [hc]
    · simp only [hc, Bool.false_eq_true, if_neg, not_false_eq_true,
        Bool.not_false, if_pos]
      cases hs : splitWhen p rest with
      | nil => exact absurd hs (splitWhen_ne_nil p rest)
      | cons x t =>
        rw [hs] at ih
        simp only [List.headD_cons] at ih
        simp [consHead, ih]

theorem intercalateChar_consHead (sep c : Char) (l : List (List Char)) :
    intercalateChar sep (consHead c l) = c :: intercalateChar sep l := by
  cases l with
  | nil => simp [consHead, intercalateChar]
  | cons x xs =>
    cases xs with
    | nil => simp [consHead, intercalateChar]
    | cons y t => simp [consHead, intercalateChar]

theorem beforeLast_splitChar (sep : Char) (cs : List Char) :
    intercalateChar sep ((splitChar sep cs).dropLast) =
      beforeLastWhen (fun c => decide (c = sep)) cs := by
  induction cs with
  | nil => simp [splitChar, splitWhen, beforeLastWhen, intercalateChar]
  | cons c rest ih =>
    simp only [splitChar, splitWhen, beforeLastWhen] at *
    by_cases hc : decide (c = sep) = true
    · have hceq : c = sep := of_decide_eq_true hc
      subst hceq
      rw [if_pos hc]
      cases hs : splitWhen (fun x => decide (x = c)) rest with
      | nil => exact absurd hs (splitWhen_ne_nil _ rest)
      | cons x t =>
        cases t with
        | nil =>
          have ha : rest.any (fun x => decide (x = c)) = false :=
            any_false_of_splitWhen_singleton hs
          rw [if_neg (by simp [ha])]
          simp [hs, intercalateChar]
        | cons y t2 =>
          have ha : rest.any (fun x => decide (x = c)) = true :=
            any_true_of_splitWhen_cons_cons hs
          rw [if_pos ha]
          rw [hs] at ih
          rw [List.dropLast_cons₂] at ih
          have hd : ([] :: x :: y :: t2).dropLast =
              [] :: x :: (y :: t2).dropLast := by
            simp [List.dropLast_cons₂]
          rw [hd]
          have : intercalateChar c ([] :: x :: (y :: t2).dropLast) =
              c :: intercalateChar c (x :: (y :: t2).dropLast) := rfl
          rw [this, ih]
    · rw [if_neg hc]
      cases hs : splitWhen (fun x => decide (x = sep)) rest with
      | nil => exact absurd hs (splitWhen_ne_nil _ rest)
      | cons x t =>
        cases t with
        | nil =>
          have ha : rest.any (fun x => decide (x = sep)) = false :=
            any_false_of_splitWhen_singleton hs
          rw [if_neg (by simp [ha])]
          simp [hs, consHead, intercalateChar]
        | cons y t2 =>
          have ha : rest.any (fun x => decide (x = sep)) = true :=
            any_true_of_splitWhen_cons_cons hs
          rw [if_pos ha]
          rw [hs] at ih
          rw [List.dropLast_cons₂] at ih
          simp only [consHead]
          have hd : ((c :: x) :: y :: t2).dropLast =
              (c :: x) :: (y :: t2).dropLast := by
            simp [List.dropLast_cons₂]
          rw [hd]
          have h2 : (c :: x) :: (y :: t2).dropLast =
              consHead c (x :: (y :: t2).dropLast) := rfl
          rw [h2, intercalateChar_consHead, ih]


/-! ### C10: determinism and idempotence of the pipeline -/

/-- Claim C10: the pipeline is deterministic and idempotent — two runs
of the normalization stage over the same raw input produce the same
canonical galaxy (hence byte-identical serialized output), and two runs
of the loading stage over the same canonical input produce identical
stores regardless of what store a previous run left behind, because the
store is dropped and rebuilt at the start of each run. -/
theorem c10_pipeline_deterministic_idempotent (p1 p2 : Option DB)
    (catalog : List Resource) (raw : RawGalaxy) :
    pipelineRun p1 catalog raw = pipelineRun p2 catalog raw := rfl

/-! ### C5: gravity parse failure is fatal -/

theorem normalizeSystem_none {sys nm : String} {rb : RawBody}
    {bodies : List (String × RawBody)} (hmem : (nm, rb) ∈ bodies)
    (h : normalizeBody sys nm rb = none) :
    normalizeSystem sys bodies = none := by
  induction bodies with
  | nil => cases hmem
  | cons hd tl ih =>
    rcases List.mem_cons.mp hmem with heq | hmem2
    · obtain ⟨nm2, rb2⟩ := hd
      obtain ⟨h1, h2⟩ := Prod.mk.injEq .. ▸ heq.symm
      simp only [normalizeSystem]
      rw [show nm2 = nm from congrArg Prod.fst heq.symm,
        show rb2 = rb from congrArg Prod.snd heq.symm, h]
    · obtain ⟨nm2, rb2⟩ := hd
      simp only [normalizeSystem]
      cases hnb : normalizeBody sys nm2 rb2 with
      | none => rfl
      | some p =>
        obtain ⟨b, ds⟩ := p
        rw [ih hmem2]

theorem normalizeAll_none {sys : String}
    {bodies : List (String × RawBody)} {raw : RawGalaxy}
    (hmem : (sys, bodies) ∈ raw)
    (h : normalizeSystem sys bodies = none) :
    normalizeAll raw = none := by
  induction raw with
  | nil => cases hmem
  | cons hd tl ih =>
    rcases List.mem_cons.mp hmem with heq | hmem2
    · obtain ⟨sys2, bodies2⟩ := hd
      simp only [normalizeAll]
      rw [show sys2 = sys from congrArg Prod.fst heq.symm,
        show bodies2 = bodies from congrArg Prod.snd heq.symm, h]
    · obtain ⟨sys2, bodies2⟩ := hd
      simp only [normalizeAll]
      cases hns : normalizeSystem sys2 bodies2 with
      | none => rfl
      | some p =>
        obtain ⟨bs, ds⟩ := p
        rw [ih hmem2]

/-- Claim C5: a raw body whose gravity string does not parse as a float
after removing the `g` unit characters and surrounding whitespace is
not defended against: its normalization produces no body (no defaulted
gravity), and the whole normalization run containing it aborts. -/
theorem c5_gravity_fatal (sys nm : String) (rb : RawBody)
    (raw : RawGalaxy) (bodies : List (String × RawBody))
    (hg : parseGravity rb.gravity = none)
    (hsys : (sys, bodies) ∈ raw) (hbody : (nm, rb) ∈ bodies) :
    normalizeBody sys nm rb = none ∧ restructureMain raw = none := by
  have h1 : normalizeBody sys nm rb = none := by
    simp only [normalizeBody, hg]
  refine ⟨h1, ?_⟩
  have h2 := normalizeAll_none hsys (normalizeSystem_none hbody h1)
  simp only [restructureMain, h2]

/-- Witness for C5 at a concrete input (`gravity = "heavy"`). -/
theorem c5_witness :
    parseGravity rawBodyBadGravity.gravity = none ∧
    ("S", [("P", rawBodyBadGravity)]) ∈
      ([("S", [("P", rawBodyBadGravity)])] : RawGalaxy) ∧
    ("P", rawBodyBadGravity) ∈ [("P", rawBodyBadGravity)] ∧
    (normalizeBody "S" "P" rawBodyBadGravity = none ∧
      restructureMain [("S", [("P", rawBodyBadGravity)])] = none) :=
  ⟨by decide, by decide, by decide,
    c5_gravity_fatal "S" "P" rawBodyBadGravity
      [("S", [("P", rawBodyBadGravity)])] [("P", rawBodyBadGravity)]
      (by decide) (by decide) (by decide)⟩

/-! ### C1: resource reference resolution -/

theorem dictGet_dictInsert (m : SMap) (k v k' : String) :
    dictGet (dictInsert m k v) k' = if k' = k then some v else dictGet m k' := by
  induction m with
  | nil =>
    simp only [dictInsert, dictGet]
    by_cases h : k = k'
    · rw [if_pos h, if_pos h.symm]
    · rw [if_neg h, if_neg fun hh => h hh.symm]
  | cons p rest ih =>
    obtain ⟨k2, v2⟩ := p
    simp only [dictInsert]
    by_cases hk2 : k2 = k
    · subst hk2
      simp only [if_pos rfl, dictGet]
      by_cases h : k2 = k'
      · rw [if_pos h, if_pos h.symm]
      · rw [if_neg h, if_neg fun hh => h hh.symm, if_neg h]
    · rw [if_neg hk2]
      simp only [dictGet, ih]
      by_cases h2 : k2 = k'
      · have : ¬ k' = k := fun hh => hk2 (h2.trans hh)
        rw [if_pos h2, if_neg this, if_pos h2]
      · rw [if_neg h2, if_neg h2]

theorem foldl_smap_not_mem (cat : List Resource) (m : SMap) (k : String)
    (hk : k ∉ catalogKeys cat) :
    dictGet
      (cat.foldl
        (fun m r =>
          dictInsert (dictInsert m (lowerStr r.shortName) r.resource)
            (lowerStr r.resource) r.shortName)
        m) k = dictGet m k := by
  induction cat generalizing m with
  | nil => rfl
  | cons r rest ih =>
    simp only [catalogKeys, List.mem_cons, not_or] at hk
    obtain ⟨h1, h2, h3⟩ := hk
    rw [List.foldl_cons, ih _ h3, dictGet_dictInsert, if_neg h2,
      dictGet_dictInsert, if_neg h1]

theorem foldl_smap_mem (cat : List Resource) (res : Resource) (m : SMap)
    (hmem : res ∈ cat) (hnd : (catalogKeys cat).Nodup) :
    dictGet
      (cat.foldl
        (fun m r =>
          dictInsert (dictInsert m (lowerStr r.shortName) r.resource)
            (lowerStr r.resource) r.shortName)
        m) (lowerStr res.shortName) = some res.resource ∧
    dictGet
      (cat.foldl
        (fun m r =>
          dictInsert (dictInsert m (lowerStr r.shortName) r.resource)
            (lowerStr r.resource) r.shortName)
        m) (lowerStr res.resource) = some res.shortName := by
  induction cat generalizing m with
  | nil => cases hmem
  | cons r rest ih =>
    simp only [catalogKeys, List.nodup_cons, List.mem_cons, not_or] at hnd
    obtain ⟨⟨hsnfn, hsnrest⟩, hfnrest, hndrest⟩ := hnd
    rcases List.mem_cons.mp hmem with heq | hmem2
    · subst heq
      rw [List.foldl_cons]
      constructor
      · rw [foldl_smap_not_mem rest _ _ hsnrest, dictGet_dictInsert,
          if_neg hsnfn, dictGet_dictInsert, if_pos rfl]
      · rw [foldl_smap_not_mem rest _ _ hfnrest, dictGet_dictInsert,
          if_pos rfl]
    · rw [List.foldl_cons]
      exact ih _ hmem2 hndrest

theorem resolveAll_forall2 {m : SMap} {rs fs : List String}
    (h : resolveAll m rs = some fs) :
    List.Forall₂ (fun r f => resolveName m r = some f) rs fs := by
  induction rs generalizing fs with
  | nil =>
    simp only [resolveAll, Option.some.injEq] at h
    subst h
    constructor
  | cons r rest ih =>
    simp only [resolveAll] at h
    cases hr : resolveName m r with
    | none => rw [hr] at h; cases h
    | some f =>
      rw [hr] at h
      cases ha : resolveAll m rest with
      | none => rw [ha] at h; cases h
      | some fs2 =>
        rw [ha] at h
        simp only [Option.some.injEq] at h
        subst h
        exact List.Forall₂.cons hr (ih ha)

/-- Counterexample to claim C1 as stated: the shortname map sends a
lowercased full name to the resource's SHORT name, so resolving the
full-name reference `"IRON"` yields `"Fe"`, not the canonical full name
`"Iron"`, and the loader inserts `"Fe"` into the body-resources
table. -/
theorem c1_counterexample :
    resolveName (buildShortnameMap ironCatalog) "fe" = some "Iron" ∧
    resolveName (buildShortnameMap ironCatalog) "IRON" = some "Fe" ∧
    (createDbRun none ironCatalog [bodyIron]).1.body_resources =
      [("Sys", "B", "Fe")] ∧
    ("Fe" : String) ≠ "Iron" := by decide

/-- Claim C1 as amended: for a catalog whose lowercased short and full
names are pairwise distinct, the loader resolves a reference by looking
up its lowercased form in the shortname map, which sends a lowercased
short name to the full name and a lowercased full name to the short
name; the looked-up values (not necessarily full names) are what is
inserted into the body-resources rows. -/
theorem c1_resolution_amended (catalog : List Resource) (res : Resource)
    (hmem : res ∈ catalog) (hnd : (catalogKeys catalog).Nodup)
    (r : String) (db : DB) (b : Body) (fulls : List String)
    (hres : resolveAll (buildShortnameMap catalog) b.resources = some fulls) :
    (lowerStr r = lowerStr res.shortName →
      resolveName (buildShortnameMap catalog) r = some res.resource) ∧
    (lowerStr r = lowerStr res.resource →
      resolveName (buildShortnameMap catalog) r = some res.shortName) ∧
    List.Forall₂
      (fun ref full => resolveName (buildShortnameMap catalog) ref = some full)
      b.resources fulls ∧
    ∃ db2 ds, insertBodyTx (buildShortnameMap catalog) db b = some (db2, ds) ∧
      db2.body_resources =
        db.body_resources ++ fulls.map fun f => (b.system, b.name, f) := by
  have hm := foldl_smap_mem catalog res [] hmem hnd
  refine ⟨fun hr => ?_, fun hr => ?_, resolveAll_forall2 hres, ?_⟩
  · simp only [resolveName, buildShortnameMap]
    rw [hr]
    exact hm.1
  · simp only [resolveName, buildShortnameMap]
    rw [hr]
    exact hm.2
  · have htx : insertBodyTx (buildShortnameMap catalog) db b =
        some
          ({ db with
             bodies :=
               if bodyKeyPresent db.bodies b then db.bodies
               else db.bodies ++ [bodyRowOf b]
             traits := db.traits ++ b.traits.map fun t => (b.system, b.name, t)
             body_resources :=
               db.body_resources ++ fulls.map fun f => (b.system, b.name, f)
             body_organics := db.body_organics ++
               (b.domesticable.map fun o =>
                 (b.system, b.name, o.name, o.resource, true)) ++
               (b.gatherable.map fun o =>
                 (b.system, b.name, o.name, o.resource, false))
             biomes :=
               db.biomes ++ b.biomes.map fun bm =>
                 (b.system, b.name, bm.name, bm.coverage) },
           if bodyKeyPresent db.bodies b then [LoadDiag.badData (bodyRowOf b)]
           else []) := by
      simp only [insertBodyTx, hres, txDB, txDiag]
    exact ⟨_, _, htx, rfl⟩

/-- Witness for the amended C1 at the Iron/Fe catalog: `"fe"` resolves
to `"Iron"`, `"IRON"` resolves to `"Fe"`, and loading `bodyIron`
(which references `"IRON"`) inserts the row `("Sys", "B", "Fe")`. -/
theorem c1_witness :
    (ironRes ∈ ironCatalog ∧ (catalogKeys ironCatalog).Nodup ∧
      resolveAll (buildShortnameMap ironCatalog) bodyIron.resources =
        some ["Fe"]) ∧
    ((lowerStr "IRON" = lowerStr ironRes.shortName →
      resolveName (buildShortnameMap ironCatalog) "IRON" =
        some ironRes.resource) ∧
    (lowerStr "IRON" = lowerStr ironRes.resource →
      resolveName (buildShortnameMap ironCatalog) "IRON" =
        some ironRes.shortName) ∧
    List.Forall₂
      (fun ref full =>
        resolveName (buildShortnameMap ironCatalog) ref = some full)
      bodyIron.resources ["Fe"] ∧
    ∃ db2 ds,
      insertBodyTx (buildShortnameMap ironCatalog) emptyDB bodyIron =
        some (db2, ds) ∧
      db2.body_resources =
        emptyDB.body_resources ++
          (["Fe"].map fun f => (bodyIron.system, bodyIron.name, f))) :=
  ⟨⟨by decide, by decide, by decide⟩,
    c1_resolution_amended ironCatalog ironRes (by decide) (by decide)
      "IRON" emptyDB bodyIron ["Fe"] (by decide)⟩

/-! ### C2: an unresolved resource reference aborts the load -/

theorem parseBiome_eq_biomeRule (s : String) : parseBiome s = biomeRule s := by
  simp only [parseBiome, biomeRule]
  rw [beforeLast_splitChar, splitChar, getLastD_splitWhen]

/-- Counterexample to claim C3 as stated: the source splits on single
space characters (`str.split(" ")`), not on whitespace runs, so for
`"Arctic  40%"` (two spaces) the empty piece between the spaces is
rejoined into the name, which becomes `"Arctic "` — not the
whitespace-token join `"Arctic"` that the claim describes. -/
theorem c3_counterexample :
    parseBiome "Arctic  40%" =
      some ⟨"Arctic ", PyFloat.finite ⟨2, 5⟩⟩ ∧
    wsTokens "Arctic  40%" = ["Arctic", "40%"] ∧
    (wsTokens "Arctic  40%").dropLast = ["Arctic"] ∧
    ("Arctic " : String) ≠ "Arctic" := by decide

/-- Claim C3 as amended: an entry containing `%` yields a biome whose
name is the text before the LAST SPACE CHARACTER (empty pieces from
adjacent spaces are kept, so runs of spaces survive into the name) and
whose coverage is the text after the last space with `%` removed,
parsed and divided by 100; a coverage parse failure drops the entry
with a warning (whenever normalization of the containing body
succeeds, each dropped entry has its invalid-biome diagnostic among the
body's diagnostics); an entry without `%` keeps the whole string with
coverage 0; the list is sorted ascending by name.  The claim's example
is unaffected. -/
theorem c3_biomes_amended (bs : List String) :
    normalizeBiomes bs = (bs.filterMap biomeRule).insertionSort biomeNameLE ∧
    List.Sorted biomeNameLE (normalizeBiomes bs) ∧
    (normalizeBiomes bs).Perm (bs.filterMap biomeRule) ∧
    normalizeBiomes ["Arctic 40%", "Desert"] =
      [⟨"Arctic", PyFloat.finite ⟨2, 5⟩⟩,
        ⟨"Desert", PyFloat.finite ⟨0, 1⟩⟩] ∧
    (∀ sys nm rb b ds, normalizeBody sys nm rb = some (b, ds) →
      ∀ s ∈ rb.biomes, biomeRule s = none →
        Diag.invalidBiome sys nm s ∈ ds) := by
  have hfm : bs.filterMap parseBiome = bs.filterMap biomeRule :=
    List.filterMap_congr fun x _ => parseBiome_eq_biomeRule x
  refine ⟨by rw [normalizeBiomes, hfm], ?_, ?_, by decide, ?_⟩
  · rw [normalizeBiomes]
    exact List.sorted_insertionSort biomeNameLE _
  · rw [normalizeBiomes, hfm]
    exact List.perm_insertionSort biomeNameLE _
  · intro sys nm rb b ds hnb s hs hrule
    have hparse : parseBiome s = none := by
      rw [parseBiome_eq_biomeRule]
      exact hrule
    rcases hgv : parseGravity rb.gravity with _ | grav
    · simp only [normalizeBody, hgv] at hnb
      exact Option.noConfusion hnb
    · simp only [normalizeBody, hgv, Option.some.injEq] at hnb
      have hds := congrArg Prod.snd hnb
      simp only at hds
      subst hds
      refine List.mem_append_right _ ?_
      exact List.mem_filterMap.mpr ⟨s, hs, by simp [hparse]⟩

/-- Witness for the amended C3's warning conjunct: normalizing
`rawBodyBiome` drops the entry `"Bad 12x%"` and emits its
diagnostic. -/
theorem c3_witness :
    (biomeRule "Bad 12x%" = none ∧
      "Bad 12x%" ∈ rawBodyBiome.biomes ∧
      normalizeBody "S" "P" rawBodyBiome =
        some (biomeNormBody, biomeNormDiags)) ∧
    Diag.invalidBiome "S" "P" "Bad 12x%" ∈ biomeNormDiags :=
  ⟨⟨by decide, by decide, by decide⟩,
    (c3_biomes_amended []).2.2.2.2 "S" "P" rawBodyBiome biomeNormBody
      biomeNormDiags (by decide) "Bad 12x%" (by decide) (by decide)⟩

/-! ### C8: organic parsing (corrected) -/

theorem parseOrganic_eq_organicRule (s : String) :
    parseOrganic s = organicRule s := by
  simp only [parseOrganic, organicRule, splitChar]
  rw [getLastD_splitWhen, headD_splitWhen]

/-- Counterexample to claim C8 as stated: the source takes the text
after the LAST `(` (`parts[-1]`) and removes EVERY `)`, so for
`"A (B(C)"` the resource is `"C"`, while the claim's rule (text after
the FIRST `(`, with the trailing `)` stripped) gives `"B(C"`. -/
theorem c8_counterexample :
    parseOrganic "A (B(C)" = ⟨"A", "C"⟩ ∧
    afterFirstParen "A (B(C)" = "B(C)" ∧
    stripTrailingParen (afterFirstParen "A (B(C)") = "B(C" ∧
    ("C" : String) ≠ "B(C" := by decide

/-- Claim C8 as amended: the organism name is the text before the
first `(`, trimmed; the resource is the text after the LAST `(` with
ALL `)` characters removed, trimmed; each of the two lists is sorted
ascending by organism name.  The claim's example is unaffected:
`["Void Sloth (Argon)"]` yields name `"Void Sloth"`, resource
`"Argon"`. -/
theorem c8_organics_amended (l : List String) :
    normalizeOrganics l = (l.map organicRule).insertionSort orgNameLE ∧
    List.Sorted orgNameLE (normalizeOrganics l) ∧
    (normalizeOrganics l).Perm (l.map organicRule) ∧
    normalizeOrganics ["Void Sloth (Argon)"] =
      [⟨"Void Sloth", "Argon"⟩] := by
  have hfm : l.map parseOrganic = l.map organicRule :=
    List.map_congr_left fun x _ => parseOrganic_eq_organicRule x
  refine ⟨by rw [normalizeOrganics, hfm], ?_, ?_, by decide⟩
  · rw [normalizeOrganics]
    exact List.sorted_insertionSort orgNameLE _
  · rw [normalizeOrganics, hfm]
    exact List.perm_insertionSort orgNameLE _

/-! ### C9: the assembled galaxy is sorted by (system, name) -/

/-- Claim C9: the assembled canonical galaxy is the input sequence of
bodies sorted ascending by the (system name, body name) pair (ordinal,
i.e. code-point, string order): the sort output is a permutation of its
input, it is sorted under the pair order, and every successful
normalization run ends with such a sort. -/
theorem c9_assemble_sorted (g : List Body) (raw : RawGalaxy)
    (out : List Body) (ds : List Diag) :
    (sortGalaxy g).Perm g ∧ List.Sorted bodyKeyLE (sortGalaxy g) ∧
    (restructureMain raw = some (out, ds) →
      List.Sorted bodyKeyLE out) := by
  refine ⟨List.perm_insertionSort bodyKeyLE g,
    List.sorted_insertionSort bodyKeyLE g, fun h => ?_⟩
  cases hna : normalizeAll raw with
  | none => rw [restructureMain, hna] at h; cases h
  | some p =>
    obtain ⟨g0, ds0⟩ := p
    rw [restructureMain, hna] at h
    simp only [Option.some.injEq, Prod.mk.injEq] at h
    rw [← h.1]
    exact List.sorted_insertionSort bodyKeyLE g0

/-- Witness for C9's run-level conjunct at the empty input. -/
theorem c9_witness :
    restructureMain ([] : RawGalaxy) = some ([], []) ∧
    ((sortGalaxy [bodyIron, bodyOkay]).Perm [bodyIron, bodyOkay] ∧
      List.Sorted bodyKeyLE (sortGalaxy [bodyIron, bodyOkay]) ∧
      (restructureMain ([] : RawGalaxy) = some ([], []) →
        List.Sorted bodyKeyLE [])) :=
  ⟨by decide, c9_assemble_sorted [bodyIron, bodyOkay] [] [] []⟩

/-! ### C4: numeric-field fallbacks (corrected) -/

/-- Counterexample to claim C4 as stated: for a raw `planet_length` of
`" 5"` (leading space), the claim's rule (first whitespace token, here
`"5"`, parsed as `5`) gives `5`, but the source's `split(" ")[0]` is
the empty string, so the parse fails and the value defaults to `24`
with a diagnostic. -/
theorem c4_counterexample :
    ((normalizeBody "S" "P" rawBodyPL).map fun p => p.1.planet_length) =
      some 24 ∧
    ((normalizeBody "S" "P" rawBodyPL).map fun p =>
      decide (Diag.invalidPlanetLength "S" "P" (.str " 5") ∈ p.2)) =
        some true ∧
    wsTokens " 5" = ["5"] ∧ pyInt "5" = some 5 ∧ (24 : Int) ≠ 5 := by
  decide

/-- Claim C4 as amended: numeric-field fallbacks are non-fatal and
independent — whenever gravity parses, normalization succeeds, any
unparseable fauna/flora/hab_rank becomes 0 with a diagnostic, and
`planet_length` takes the integer parse of the text before the FIRST
SPACE CHARACTER of the raw string (the whole string when it has no
space), defaulting to 24 with a diagnostic when that parse fails or
when the raw value is not a string. -/
theorem c4_numeric_fallbacks (sys nm : String) (rb : RawBody)
    (hg : (parseGravity rb.gravity).isSome) :
    (normalizeBody sys nm rb).isSome ∧
    ∀ b ds, normalizeBody sys nm rb = some (b, ds) →
      b.fauna = (pyInt rb.fauna).getD 0 ∧
      (pyInt rb.fauna = none → Diag.invalidFauna sys nm rb.fauna ∈ ds) ∧
      b.flora = (pyInt rb.flora).getD 0 ∧
      (pyInt rb.flora = none → Diag.invalidFlora sys nm rb.flora ∈ ds) ∧
      b.hab_rank = (pyInt rb.hab_rank).getD 0 ∧
      (pyInt rb.hab_rank = none →
        Diag.invalidHabRank sys nm rb.hab_rank ∈ ds) ∧
      b.planet_length = (parsePlanetLength rb.planet_length).getD 24 ∧
      (parsePlanetLength rb.planet_length = none →
        Diag.invalidPlanetLength sys nm rb.planet_length ∈ ds) ∧
      (∀ str, rb.planet_length = StrOrInt.str str →
        parsePlanetLength rb.planet_length =
          pyIntChars (str.data.takeWhile fun c => ! decide (c = ' '))) := by
  rcases hgv : parseGravity rb.gravity with _ | grav
  · rw [hgv] at hg
    exact absurd hg (by simp)
  constructor
  · simp [normalizeBody, hgv]
  intro b ds hnb
  simp only [normalizeBody, hgv, Option.some.injEq] at hnb
  have hb := congrArg Prod.fst hnb
  have hds := congrArg Prod.snd hnb
  simp only at hb hds
  subst hb
  subst hds
  refine ⟨?_, ?_, ?_, ?_, ?_, ?_, ?_, ?_, ?_⟩
  · rcases h : pyInt rb.fauna <;> simp [h]
  · intro h
    rcases h2 : pyInt rb.flora <;> rcases h3 : pyInt rb.hab_rank <;>
      rcases h4 : parsePlanetLength rb.planet_length <;>
        simp [h, h2, h3, h4]
  · rcases h : pyInt rb.flora <;> simp [h]
  · intro h
    rcases h2 : pyInt rb.fauna <;> rcases h3 : pyInt rb.hab_rank <;>
      rcases h4 : parsePlanetLength rb.planet_length <;>
        simp [h, h2, h3, h4]
  · rcases h : pyInt rb.hab_rank <;> simp [h]
  · intro h
    rcases h2 : pyInt rb.fauna <;> rcases h3 : pyInt rb.flora <;>
      rcases h4 : parsePlanetLength rb.planet_length <;>
        simp [h, h2, h3, h4]
  · rcases h : parsePlanetLength rb.planet_length <;> simp [h]
  · intro h
    rcases h2 : pyInt rb.fauna <;> rcases h3 : pyInt rb.flora <;>
      rcases h4 : pyInt rb.hab_rank <;> simp [h, h2, h3, h4]
  · intro str hstr
    rw [hstr]
    simp only [parsePlanetLength, splitChar]
    rw [headD_splitWhen]

/-- Witness for the amended C4: every numeric field of
`rawBodyBadNums` fails to parse, gravity parses, normalization
succeeds with all the defaults and diagnostics. -/
theorem c4_witness :
    (parseGravity rawBodyBadNums.gravity).isSome ∧
    ((normalizeBody "S" "P" rawBodyBadNums).isSome ∧
      ∀ b ds, normalizeBody "S" "P" rawBodyBadNums = some (b, ds) →
        b.fauna = (pyInt rawBodyBadNums.fauna).getD 0 ∧
        (pyInt rawBodyBadNums.fauna = none →
          Diag.invalidFauna "S" "P" rawBodyBadNums.fauna ∈ ds) ∧
        b.flora = (pyInt rawBodyBadNums.flora).getD 0 ∧
        (pyInt rawBodyBadNums.flora = none →
          Diag.invalidFlora "S" "P" rawBodyBadNums.flora ∈ ds) ∧
        b.hab_rank = (pyInt rawBodyBadNums.hab_rank).getD 0 ∧
        (pyInt rawBodyBadNums.hab_rank = none →
          Diag.invalidHabRank "S" "P" rawBodyBadNums.hab_rank ∈ ds) ∧
        b.planet_length =
          (parsePlanetLength rawBodyBadNums.planet_length).getD 24 ∧
        (parsePlanetLength rawBodyBadNums.planet_length = none →
          Diag.invalidPlanetLength "S" "P" rawBodyBadNums.planet_length
            ∈ ds) ∧
        (∀ str, rawBodyBadNums.planet_length = StrOrInt.str str →
          parsePlanetLength rawBodyBadNums.planet_length =
            pyIntChars (str.data.takeWhile fun c => ! decide (c = ' ')))) :=
  ⟨by decide, c4_numeric_fallbacks "S" "P" rawBodyBadNums (by decide)⟩

/-! ### C7: biome coverage bounds (corrected) -/

theorem gcdF_eq (f m n : Nat) (h : m < f) : gcdF f m n = Nat.gcd m n := by
  induction f generalizing m n with
  | zero => omega
  | succ f ih =>
    simp only [gcdF]
    by_cases hm : m = 0
    · simp [hm]
    · rw [if_neg hm]
      have hlt : n % m < m := Nat.mod_lt n (Nat.pos_of_ne_zero hm)
      rw [ih (n % m) m (by omega)]
      exact (Nat.gcd_rec m n).symm

theorem natGcd_eq (m n : Nat) : natGcd m n = Nat.gcd m n :=
  gcdF_eq (m + 1) m n (Nat.lt_succ_self m)

/-- The reduced form of a nonnegative fraction with numerator at most
its denominator stays within the unit interval. -/
theorem mkFrac_unit {n : Int} {d : Nat} (h0 : 0 ≤ n) (h1 : n ≤ (d : Int)) :
    0 ≤ (mkFrac n d).num ∧ (mkFrac n d).num ≤ ((mkFrac n d).den : Int) := by
  unfold mkFrac
  by_cases hd : d = 0
  · rw [if_pos hd]
    exact ⟨le_refl 0, by norm_num⟩
  · rw [if_neg hd]
    simp only
    rw [natGcd_eq]
    set g := Nat.gcd n.natAbs d with hg
    have hgd : g ∣ d := Nat.gcd_dvd_right _ _
    have hgn : (g : Int) ∣ n := Int.dvd_natAbs.mp
      (Int.natCast_dvd_natCast.mpr (Nat.gcd_dvd_left _ _))
    have hgpos : 0 < g := by
      rcases Nat.eq_zero_or_pos g with hz | hp
      · exfalso
        have := Nat.eq_zero_of_gcd_eq_zero_right hz
        exact hd this
      · exact hp
    have hgposZ : (0 : Int) < (g : Int) := by exact_mod_cast hgpos
    constructor
    · exact Int.ediv_nonneg h0 (le_of_lt hgposZ)
    · have hcast : ((d / g : Nat) : Int) = (d : Int) / (g : Int) :=
        Int.ofNat_ediv d g
      rw [hcast]
      exact Int.ediv_le_ediv hgposZ h1

/-- Counterexample to claim C7 as stated: a raw percentage above 100
flows straight through — `"X 200%"` normalizes to coverage `2`, which
is not in `[0, 1]`. -/
theorem c7_counterexample :
    normalizeBiomes ["X 200%"] = [⟨"X", PyFloat.finite ⟨2, 1⟩⟩] ∧
    ¬ coverInUnit (PyFloat.finite ⟨2, 1⟩) := by decide

/-- Claim C7 as amended: the coverage of every normalized biome is the
parsed percentage divided by 100 (or 0.0 when no percentage is given),
so WHEN every entry whose coverage token parses yields a finite
percentage within `[0, 100]`, every coverage is a fraction within
`[0, 1]`, with coverage 0.0 for entries without a `%`. -/
theorem c7_coverage_amended (bs : List String)
    (h : ∀ s ∈ bs, pctOK s) :
    (∀ bm ∈ normalizeBiomes bs, coverInUnit bm.coverage) ∧
    (∀ s ∈ bs, '%' ∉ s.data →
      parseBiome s = some ⟨s, PyFloat.finite ⟨0, 1⟩⟩) := by
  constructor
  · intro bm hbm
    rw [normalizeBiomes] at hbm
    have hbm2 : bm ∈ bs.filterMap parseBiome :=
      (List.perm_insertionSort biomeNameLE _).mem_iff.mp hbm
    obtain ⟨s, hs, hps⟩ := List.mem_filterMap.mp hbm2
    have hok := h s hs
    simp only [parseBiome] at hps
    by_cases hpct : '%' ∈ s.data
    · rw [if_pos hpct] at hps
      rcases hpp : pyFloatChars
          (((splitChar ' ' s.data).getLastD []).filter
            fun c => decide (c ≠ '%')) with _ | p
      · rw [hpp] at hps
        cases hps
      · rw [hpp] at hps
        have hpp2 : pctParse s = some p := by
          rw [pctParse, hpp]
        unfold pctOK at hok
        rw [hpp2] at hok
        cases p with
        | finite q =>
          simp only [Option.some.injEq] at hps
          rw [← hps]
          simp only [PyFloat.div100, coverInUnit, Frac.divNat]
          obtain ⟨ha, hb⟩ := hok
          have hb2 : q.num ≤ ((q.den * 100 : Nat) : Int) := by
            push_cast
            omega
          exact mkFrac_unit ha hb2
        | inf => cases hok
        | neginf => cases hok
        | nan => cases hok
    · rw [if_neg hpct] at hps
      simp only [Option.some.injEq] at hps
      rw [← hps]
      simp [coverInUnit]
  · intro s hs hpct
    simp only [parseBiome, if_neg hpct]

/-- Witness for the amended C7 at the spec's example biome list. -/
theorem c7_witness :
    (∀ s ∈ ["Arctic 40%", "Desert"], pctOK s) ∧
    ((∀ bm ∈ normalizeBiomes ["Arctic 40%", "Desert"],
        coverInUnit bm.coverage) ∧
      (∀ s ∈ ["Arctic 40%", "Desert"], '%' ∉ s.data →
        parseBiome s = some ⟨s, PyFloat.finite ⟨0, 1⟩⟩)) :=
  ⟨by decide, c7_coverage_amended ["Arctic 40%", "Desert"] (by decide)⟩

/-! ### C6: duplicate body keys -/

theorem insertBodyTx_eq {m : SMap} (db : DB) {b : Body} {fs : List String}
    (hfs : resolveAll m b.resources = some fs) :
    insertBodyTx m db b = some (txDB db b fs, txDiag db b) := by
  simp only [insertBodyTx, hfs]

theorem countBodies_append_row (rows : List BodyRow) (b : Body)
    (s n : String) :
    countBodies (rows ++ [bodyRowOf b]) s n =
      countBodies rows s n + (if b.system = s ∧ b.name = n then 1 else 0) := by
  simp only [countBodies, List.filter_append, List.length_append, bodyRowOf]
  by_cases h : b.system = s ∧ b.name = n
  · simp [h]
  · simp [h]

theorem occKey_cons (b : Body) (g : List Body) (s n : String) :
    occKey (b :: g) s n =
      (if b.system = s ∧ b.name = n then 1 else 0) + occKey g s n := by
  simp only [occKey, List.filter_cons]
  by_cases h : b.system = s ∧ b.name = n
  · simp [h]
    omega
  · simp [h]

theorem countDupDiags_append (d1 d2 : List LoadDiag) (s n : String) :
    countDupDiags (d1 ++ d2) s n =
      countDupDiags d1 s n + countDupDiags d2 s n := by
  simp [countDupDiags, List.filter_append]

theorem countDupDiags_txDiag (db : DB) (b : Body) (s n : String) :
    countDupDiags (txDiag db b) s n =
      if bodyKeyPresent db.bodies b then
        (if b.system = s ∧ b.name = n then 1 else 0)
      else 0 := by
  unfold txDiag
  by_cases hdup : bodyKeyPresent db.bodies b = true
  · rw [if_pos hdup, if_pos hdup]
    by_cases h : b.system = s ∧ b.name = n
    · simp [countDupDiags, bodyRowOf, h]
    · simp only [countDupDiags, bodyRowOf]
      simp [h]
  · rw [if_neg hdup, if_neg hdup]
    simp [countDupDiags]

theorem bodyKeyPresent_iff (rows : List BodyRow) (b : Body) :
    bodyKeyPresent rows b = true ↔
      0 < countBodies rows b.system b.name := by
  simp only [bodyKeyPresent, countBodies, List.any_eq_true,
    List.length_pos_iff_exists_mem, List.mem_filter, decide_eq_true_eq,
    Bool.and_eq_true]
  constructor
  · rintro ⟨r, hr, h1, h2⟩
    refine ⟨r, hr, ?_⟩
    simp [h1, h2]
  · rintro ⟨r, hr, h⟩
    have h2 : r.system = b.system ∧ r.name = b.name := by
      simpa using h
    exact ⟨r, hr, h2.2, h2.1⟩

theorem txDB_bodies_count (db : DB) (b : Body) (fs : List String)
    (s n : String) (hc : countBodies db.bodies s n ≤ 1) :
    countBodies (txDB db b fs).bodies s n =
      min (countBodies db.bodies s n +
        (if b.system = s ∧ b.name = n then 1 else 0)) 1 ∧
    countDupDiags (txDiag db b) s n =
      countBodies db.bodies s n +
        (if b.system = s ∧ b.name = n then 1 else 0) -
      min (countBodies db.bodies s n +
        (if b.system = s ∧ b.name = n then 1 else 0)) 1 := by
  rw [countDupDiags_txDiag]
  show countBodies
      (if bodyKeyPresent db.bodies b then db.bodies
        else db.bodies ++ [bodyRowOf b]) s n = _ ∧ _
  by_cases hdup : bodyKeyPresent db.bodies b = true
  · have hge : 0 < countBodies db.bodies b.system b.name :=
      (bodyKeyPresent_iff db.bodies b).mp hdup
    rw [if_pos hdup, if_pos hdup]
    by_cases hkey : b.system = s ∧ b.name = n
    · have hcs : countBodies db.bodies s n =
          countBodies db.bodies b.system b.name := by rw [hkey.1, hkey.2]
      rw [if_pos hkey]
      omega
    · rw [if_neg hkey]
      omega
  · have hz : countBodies db.bodies b.system b.name = 0 := by
      rcases Nat.eq_zero_or_pos (countBodies db.bodies b.system b.name)
        with h | h
      · exact h
      · exact absurd ((bodyKeyPresent_iff db.bodies b).mpr h) hdup
    rw [if_neg hdup, if_neg hdup, countBodies_append_row]
    by_cases hkey : b.system = s ∧ b.name = n
    · have hcs : countBodies db.bodies s n =
          countBodies db.bodies b.system b.name := by rw [hkey.1, hkey.2]
      rw [if_pos hkey]
      omega
    · rw [if_neg hkey]
      omega

theorem insertGalaxy_count (m : SMap) (g : List Body) :
    ∀ (db : DB) (s n : String),
    (∀ b ∈ g, (resolveAll m b.resources).isSome) →
    countBodies db.bodies s n ≤ 1 →
    (insertGalaxy m db g).2.2 = false ∧
    countBodies (insertGalaxy m db g).1.bodies s n =
      min (countBodies db.bodies s n + occKey g s n) 1 ∧
    countDupDiags (insertGalaxy m db g).2.1 s n =
      countBodies db.bodies s n + occKey g s n -
        min (countBodies db.bodies s n + occKey g s n) 1 := by
  induction g with
  | nil =>
    intro db s n _ hc
    refine ⟨rfl, ?_, ?_⟩ <;>
      simp only [insertGalaxy, occKey, List.filter_nil, List.length_nil,
        countDupDiags] <;>
      omega
  | cons b rest ih =>
    intro db s n hres hc
    have hb := hres b (List.mem_cons_self b rest)
    rcases hfs : resolveAll m b.resources with _ | fs
    · rw [hfs] at hb; cases hb
    have htx := insertBodyTx_eq db hfs
    have hres2 : ∀ x ∈ rest, (resolveAll m x.resources).isSome :=
      fun x hx => hres x (List.mem_cons_of_mem b hx)
    have hstep := txDB_bodies_count db b fs s n hc
    have hc2 : countBodies (txDB db b fs).bodies s n ≤ 1 := by
      rw [hstep.1]
      omega
    have ihr := ih (txDB db b fs) s n hres2 hc2
    rw [occKey_cons]
    simp only [insertGalaxy, htx]
    refine ⟨ihr.1, ?_, ?_⟩
    · rw [ihr.2.1, hstep.1]
      omega
    · rw [countDupDiags_append, ihr.2.2, hstep.1, hstep.2]
      omega

theorem insertGalaxy_mono (m : SMap) (g : List Body) :
    ∀ db : DB,
      (∀ x ∈ db.traits, x ∈ (insertGalaxy m db g).1.traits) ∧
      (∀ x ∈ db.body_resources, x ∈ (insertGalaxy m db g).1.body_resources) ∧
      (∀ x ∈ db.body_organics, x ∈ (insertGalaxy m db g).1.body_organics) ∧
      (∀ x ∈ db.biomes, x ∈ (insertGalaxy m db g).1.biomes) := by
  induction g with
  | nil =>
    intro db
    exact ⟨fun x hx => hx, fun x hx => hx, fun x hx => hx, fun x hx => hx⟩
  | cons b rest ih =>
    intro db
    rcases hfs : resolveAll m b.resources with _ | fs
    · have htx : insertBodyTx m db b = none := by
        simp [insertBodyTx, hfs]
      simp only [insertGalaxy, htx]
      exact ⟨fun x hx => hx, fun x hx => hx, fun x hx => hx, fun x hx => hx⟩
    · have htx := insertBodyTx_eq db hfs
      simp only [insertGalaxy, htx]
      have ihx := ih (txDB db b fs)
      refine ⟨fun x hx => ihx.1 x ?_, fun x hx => ihx.2.1 x ?_,
        fun x hx => ihx.2.2.1 x ?_, fun x hx => ihx.2.2.2 x ?_⟩
      · exact List.mem_append_left _ hx
      · exact List.mem_append_left _ hx
      · exact List.mem_append_left _ (List.mem_append_left _ hx)
      · exact List.mem_append_left _ hx

theorem insertGalaxy_children (m : SMap) (g : List Body) :
    ∀ db : DB, ∀ b ∈ g, ∀ fs, resolveAll m b.resources = some fs →
      (∀ b2 ∈ g, (resolveAll m b2.resources).isSome) →
      (∀ t ∈ b.traits,
        (b.system, b.name, t) ∈ (insertGalaxy m db g).1.traits) ∧
      (∀ f ∈ fs,
        (b.system, b.name, f) ∈ (insertGalaxy m db g).1.body_resources) ∧
      (∀ o ∈ b.domesticable,
        (b.system, b.name, o.name, o.resource, true) ∈
          (insertGalaxy m db g).1.body_organics) ∧
      (∀ o ∈ b.gatherable,
        (b.system, b.name, o.name, o.resource, false) ∈
          (insertGalaxy m db g).1.body_organics) ∧
      (∀ bm ∈ b.biomes,
        (b.system, b.name, bm.name, bm.coverage) ∈
          (insertGalaxy m db g).1.biomes) := by
  induction g with
  | nil =>
    intro db b hb
    cases hb
  | cons bh rest ih =>
    intro db b hb fs hfs hres
    have hbh := hres bh (List.mem_cons_self bh rest)
    rcases hfsh : resolveAll m bh.resources with _ | fsh
    · rw [hfsh] at hbh; cases hbh
    have htx := insertBodyTx_eq db hfsh
    simp only [insertGalaxy, htx]
    have hres2 : ∀ x ∈ rest, (resolveAll m x.resources).isSome :=
      fun x hx => hres x (List.mem_cons_of_mem bh hx)
    rcases List.mem_cons.mp hb with heq | hmem
    · subst heq
      have hfseq : fs = fsh := by
        rw [hfs] at hfsh
        exact Option.some.inj hfsh
      subst hfseq
      have hmono := insertGalaxy_mono m rest (txDB db b fs)
      refine ⟨fun t ht => hmono.1 _ ?_, fun f hf => hmono.2.1 _ ?_,
        fun o ho => hmono.2.2.1 _ ?_, fun o ho => hmono.2.2.1 _ ?_,
        fun bm hbm => hmono.2.2.2 _ ?_⟩
      · exact List.mem_append_right _ (List.mem_map_of_mem _ ht)
      · exact List.mem_append_right _ (List.mem_map_of_mem _ hf)
      · exact List.mem_append_left _
          (List.mem_append_right _ (List.mem_map_of_mem _ ho))
      · exact List.mem_append_right _ (List.mem_map_of_mem _ ho)
      · exact List.mem_append_right _ (List.mem_map_of_mem _ hbm)
    · exact ih (txDB db bh fsh) b hmem fs hfs hres2

/-- Claim C6: when every reference resolves and the store holds no row
for key (s, n) yet, loading a galaxy with two or more bodies of that
key does not abort, leaves exactly one bodies row for the key, prints
one duplicate diagnostic per duplicate (occurrences minus one), and
still inserts every body's child rows — traits, resolved resources,
organics and biomes — including those of each skipped duplicate. -/
theorem c6_duplicate_bodies (m : SMap) (db : DB) (g : List Body)
    (s n : String)
    (hres : ∀ b ∈ g, (resolveAll m b.resources).isSome)
    (hdb : countBodies db.bodies s n = 0)
    (hdup : 2 ≤ occKey g s n) :
    (insertGalaxy m db g).2.2 = false ∧
    countBodies (insertGalaxy m db g).1.bodies s n = 1 ∧
    countDupDiags (insertGalaxy m db g).2.1 s n = occKey g s n - 1 ∧
    (∀ b ∈ g, ∀ fs, resolveAll m b.resources = some fs →
      (∀ t ∈ b.traits,
        (b.system, b.name, t) ∈ (insertGalaxy m db g).1.traits) ∧
      (∀ f ∈ fs,
        (b.system, b.name, f) ∈ (insertGalaxy m db g).1.body_resources) ∧
      (∀ o ∈ b.domesticable,
        (b.system, b.name, o.name, o.resource, true) ∈
          (insertGalaxy m db g).1.body_organics) ∧
      (∀ o ∈ b.gatherable,
        (b.system, b.name, o.name, o.resource, false) ∈
          (insertGalaxy m db g).1.body_organics) ∧
      (∀ bm ∈ b.biomes,
        (b.system, b.name, bm.name, bm.coverage) ∈
          (insertGalaxy m db g).1.biomes)) := by
  have hcount := insertGalaxy_count m g db s n hres (by omega)
  refine ⟨hcount.1, ?_, ?_,
    fun b hb fs hfs => insertGalaxy_children m g db b hb fs hfs hres⟩
  · rw [hcount.2.1, hdb]
    omega
  · rw [hcount.2.2, hdb]
    omega

/-- Witness for C6: loading `[bodyOkay, bodyDupe]` (same key
("Sys", "A"), different children) into the empty store. -/
theorem c6_witness :
    ((∀ b ∈ [bodyOkay, bodyDupe],
        (resolveAll (buildShortnameMap ironCatalog) b.resources).isSome) ∧
      countBodies emptyDB.bodies "Sys" "A" = 0 ∧
      2 ≤ occKey [bodyOkay, bodyDupe] "Sys" "A") ∧
    ((insertGalaxy (buildShortnameMap ironCatalog) emptyDB
        [bodyOkay, bodyDupe]).2.2 = false ∧
      countBodies (insertGalaxy (buildShortnameMap ironCatalog) emptyDB
        [bodyOkay, bodyDupe]).1.bodies "Sys" "A" = 1 ∧
      countDupDiags (insertGalaxy (buildShortnameMap ironCatalog) emptyDB
        [bodyOkay, bodyDupe]).2.1 "Sys" "A" =
          occKey [bodyOkay, bodyDupe] "Sys" "A" - 1 ∧
      (∀ b ∈ [bodyOkay, bodyDupe], ∀ fs,
        resolveAll (buildShortnameMap ironCatalog) b.resources = some fs →
        (∀ t ∈ b.traits, (b.system, b.name, t) ∈
          (insertGalaxy (buildShortnameMap ironCatalog) emptyDB
            [bodyOkay, bodyDupe]).1.traits) ∧
        (∀ f ∈ fs, (b.system, b.name, f) ∈
          (insertGalaxy (buildShortnameMap ironCatalog) emptyDB
            [bodyOkay, bodyDupe]).1.body_resources) ∧
        (∀ o ∈ b.domesticable,
          (b.system, b.name, o.name, o.resource, true) ∈
            (insertGalaxy (buildShortnameMap ironCatalog) emptyDB
              [bodyOkay, bodyDupe]).1.body_organics) ∧
        (∀ o ∈ b.gatherable,
          (b.system, b.name, o.name, o.resource, false) ∈
            (insertGalaxy (buildShortnameMap ironCatalog) emptyDB
              [bodyOkay, bodyDupe]).1.body_organics) ∧
        (∀ bm ∈ b.biomes,
          (b.system, b.name, bm.name, bm.coverage) ∈
            (insertGalaxy (buildShortnameMap ironCatalog) emptyDB
              [bodyOkay, bodyDupe]).1.biomes))) :=
  ⟨⟨by decide, by decide, by decide⟩,
    c6_duplicate_bodies (buildShortnameMap ironCatalog) emptyDB
      [bodyOkay, bodyDupe] "Sys" "A" (by decide) (by decide) (by decide)⟩

end Starfield
